import Mathlib

/-!
Verification of the slither-certik type/IR core: shallow embedding of the
structural type registry, default-value synthesizer, IR variable and
operation model, and the using-for merge, with theorems checking the
natural-language specification against the code.
-/

set_option autoImplicit false

namespace SlitherCore

/-! ## Structural types (slither/core/solidity_types)

`Ty` is the closed variant set of the type registry: elementary types
(carrying their kind string exactly as the Python `ElementaryType.type`
field does), arrays (fixed iff a length is present), user-defined types
wrapping an Enum / Structure / Contract declaration, function types,
type aliases, and `typename[...]` types (typename_type.py). -/

inductive Ty where
  | elementary (kind : String)
  | array (elem : Ty) (length : Option Nat)
  | userDefinedEnum (name : String)
  | userDefinedStruct (name : String) (fieldTypes : List Ty)
  | userDefinedContract (name : String)
  | functionType (params : List Ty) (rets : List Ty)
  | typeAlias (underlying : Ty) (name : String)
  | typename (wrapped : Ty)
  deriving Repr

namespace elementary_type

/-- Modelled from the spec: the catalogue of signed integer kind strings
(`Int` in elementary_type.py, not included in the sources): `int8` ..
`int256` and the unqualified `int`. -/
def Int : List String :=
  (List.range 32).map (fun i => "int" ++ toString (8 * (i + 1))) ++ ["int"]

/-- Modelled from the spec: the catalogue of unsigned integer kind strings
(`Uint` in elementary_type.py, not included in the sources): `uint8` ..
`uint256` and the unqualified `uint`. -/
def Uint : List String :=
  (List.range 32).map (fun i => "uint" ++ toString (8 * (i + 1))) ++ ["uint"]

/-- Modelled from the spec: the fixed-size bytes kind strings (`Byte` in
elementary_type.py, not included in the sources): `byte` and `bytes1` ..
`bytes32`. -/
def Byte : List String :=
  ["byte"] ++ (List.range 32).map (fun i => "bytes" ++ toString (i + 1))

end elementary_type

/-- Textual rendering of a type, mirroring the `__str__` methods of the
type classes (used by default-value synthesis to build the `type_call`
strings such as `"uint256[] memory"`). -/
def tyStr : Ty → String
  | Ty.elementary kind => kind
  | Ty.array elem none => tyStr elem ++ "[]"
  | Ty.array elem (some n) => tyStr elem ++ "[" ++ toString n ++ "]"
  | Ty.userDefinedEnum name => name
  | Ty.userDefinedStruct name _ => name
  | Ty.userDefinedContract name => name
  | Ty.functionType _ _ => "function"
  | Ty.typeAlias _ name => name
  | Ty.typename wrapped => "typename[" ++ tyStr wrapped ++ "]"

/-! ## typename_type.py: physical-layout queries on `Typename`

The class `Typename` wraps exactly one type.  Its `storage_size` and
`is_dynamic` properties are `assert False`: they never return a value.
A failing assertion is embedded as `none`. -/

/-- The `Typename` class of typename_type.py: wraps exactly one type. -/
structure Typename where
  type : Ty
  deriving Repr

/-- `Typename.storage_size` (typename_type.py): the body is `assert False`,
so the query fails for every receiver; it never produces a pair. -/
def Typename.storage_size (_t : Typename) : Option (Nat × Bool) :=
  none

/-- `Typename.is_dynamic` (typename_type.py): the body is `assert False`,
so the query fails for every receiver; it never produces a Bool. -/
def Typename.is_dynamic (_t : Typename) : Option Bool :=
  none

/-! ## IR variables (slither/slithir/variables, slither/core/variables)

The variable categories appearing in storage classification:
state variables, local variables (location tags are strings such as
`"storage"`, `"memory"`, `"calldata"`, `"default"`), temporaries
(temporary.py: numeric index plus an optional location), references
(points-to edge, possibly chaining through other references), and
constants. -/

inductive Var where
  | stateVar (name : String) (type : Ty)
  | localVar (name : String) (location : String) (type : Ty)
  | temporaryVar (index : Nat) (location : Option String) (type : Ty)
  | referenceVar (index : Nat) (points_to : Var) (type : Ty)
  | constantVar (value : String) (type : Ty)
  deriving Repr

namespace Var

/-- `Variable.type`: the declared type of the variable. -/
def type : Var → Ty
  | stateVar _ t => t
  | localVar _ _ t => t
  | temporaryVar _ _ t => t
  | referenceVar _ _ t => t
  | constantVar _ t => t

/-- `isinstance(v, StateVariable)` on the variable categories. -/
def isStateVariable : Var → Bool
  | stateVar _ _ => true
  | _ => false

/-- `isinstance(v, LocalVariable)` on the variable categories. -/
def isLocalVariable : Var → Bool
  | localVar _ _ _ => true
  | _ => false

/-- `isinstance(v, TemporaryVariable)` on the variable categories. -/
def isTemporaryVariable : Var → Bool
  | temporaryVar _ _ _ => true
  | _ => false

/-- `isinstance(v, ReferenceVariable)` on the variable categories. -/
def isReferenceVariable : Var → Bool
  | referenceVar _ _ _ => true
  | _ => false

/-- The `location` attribute: local variables carry a location string,
temporaries an optional one (temporary.py `location` property); the
other categories have no location attribute (only consulted behind
isinstance guards in the code). -/
def location : Var → Option String
  | localVar _ loc _ => some loc
  | temporaryVar _ loc _ => loc
  | _ => none

/-- Modelled from the spec: `ReferenceVariable.points_to_origin`
(reference.py, not included in the sources) resolves the points-to
chain to the ultimate non-reference variable: "must consult the
Reference's resolved origin, not its immediate referent, because
references can chain". -/
def points_to_origin : Var → Var
  | referenceVar _ p _ => points_to_origin p
  | v => v

end Var

/-! ## push.py: storage classification and the Push operation -/

/-- `_is_storage_variable` (push.py): the four-way disjunction, in source
order — reference whose origin is a state variable; reference whose
origin is a local/temporary located in storage; a state variable
itself; a local variable located in storage. -/
def _is_storage_variable (var : Var) : Bool :=
  (var.isReferenceVariable && var.points_to_origin.isStateVariable)
  || (var.isReferenceVariable
      && (var.points_to_origin.isLocalVariable || var.points_to_origin.isTemporaryVariable)
      && var.points_to_origin.location == some "storage")
  || var.isStateVariable
  || (var.isLocalVariable && var.location == some "storage")

/-- The `Push` operation (push.py): lvalue referencing the newly
initialized element, the target array, and the optional explicit
element to push. -/
structure Push where
  lvalue : Var
  array : Var
  elem : Option Var
  deriving Repr

namespace Push

/-- `Push.read` (push.py): `[self._elem] if self._elem != None else []`. -/
def read (p : Push) : List Var :=
  match p.elem with
  | some e => [e]
  | none => []

/-- `Push.storage` (push.py): `_is_storage_variable(self._array)`. -/
def storage (p : Push) : Bool :=
  _is_storage_variable p.array

/-- `Push.type` (push.py): `self._array.type.type`, the element type of
the target array's array type; `none` when the array variable's type is
not an array type (excluded by the constructor's assertion). -/
def type (p : Push) : Option Ty :=
  match p.array.type with
  | Ty.array elem _ => some elem
  | _ => none

end Push

/-- Storage classification as the specification states it, written as an
ordered case analysis following the spec's words (§4.3): (i) a Reference
whose resolved origin is a state variable; (ii) a Reference whose
resolved origin is a local or temporary variable declared with storage
location; (iii) a state variable itself; (iv) a local variable declared
with storage location; all other cases are non-storage. -/
def spec_storage_classification (v : Var) : Bool :=
  match v with
  | Var.referenceVar _ p _ =>
    match Var.points_to_origin p with
    | Var.stateVar _ _ => true
    | Var.localVar _ loc _ => loc == "storage"
    | Var.temporaryVar _ loc _ => loc == some "storage"
    | _ => false
  | Var.stateVar _ _ => true
  | Var.localVar _ loc _ => loc == "storage"
  | _ => false

/-! ## temporary.py: TemporaryVariable allocation -/

/-- The per-compilation-unit state reached through the owning node:
`node.compilation_unit.counter_slithir_temporary`. -/
structure CompilationUnit where
  counter_slithir_temporary : Nat
  deriving Repr

/-- A constructed `TemporaryVariable` (temporary.py): its numeric index
and optional location. -/
structure TemporaryVariable where
  index : Nat
  location : Option String
  deriving Repr

/-- `TemporaryVariable.__init__` (temporary.py), with the owning
compilation unit passed explicitly in place of the node back-reference:
when `index` is `None` the variable takes the unit's current counter and
the counter is incremented; otherwise the given index is stored verbatim
and the unit is untouched. -/
def TemporaryVariable.init (unit : CompilationUnit) (index : Option Nat)
    (location : Option String) : TemporaryVariable × CompilationUnit :=
  match index with
  | none =>
    ({ index := unit.counter_slithir_temporary, location := location },
     { counter_slithir_temporary := unit.counter_slithir_temporary + 1 })
  | some i => ({ index := i, location := location }, unit)

/-- Allocate `n` temporaries in sequence through the counter path
(`index = None`), as a function lowering a function body would; returns
the allocated temporaries in order together with the updated unit. -/
def allocTemps (unit : CompilationUnit) : Nat → List TemporaryVariable × CompilationUnit
  | 0 => ([], unit)
  | n + 1 =>
    let (t, unit') := TemporaryVariable.init unit none none
    let (ts, unit'') := allocTemps unit' n
    (t :: ts, unit'')

/-! ## Expressions (slither/core/expressions)

The expression node shapes produced by default-value synthesis:
literals (literal text plus type), call expressions (called expression,
ordered arguments, and the `type_call` string), `new T[]` array
constructions, tuple expressions with the `is_inline_array` flag
(tuple_expression.py), member accesses, identifiers, two-step type
conversions, and elementary-type-name expressions. -/

inductive Expression where
  | literal (value : String) (type : Ty)
  | callExpression (called : Expression) (arguments : List Expression) (type_call : String)
  | newArray (depth : Nat) (array_type : Ty)
  | tupleExpression (expressions : List Expression) (is_inline_array : Bool)
  | memberAccess (member_name : String) (member_type : Ty) (expression : Expression)
  | identifier (value : String)
  | typeConversion (expression : Expression) (type : Ty)
  | elementaryTypeNameExpression (type : Ty)
  deriving Repr

/-! ## default_values.py: get_default_value

`get_default_value` synthesizes the default initializer expression for a
type.  Python `assert` failures are embedded as `none`; the comprehension
`[get_default_value(ty.type) for _ in range(0, length)]` for a fixed
array of length N evaluates the recursive call N times in order
(`default_value_list`), and the comprehension over a structure's
`elems_ordered` evaluates one recursive call per field in declaration
order (`default_value_fields`); either propagates a failing recursive
call. -/

mutual

/-- `get_default_value` (default_values.py): the default initializer
expression for a type, `none` where the Python function would fail its
assertions (function types at entry, and the trailing unreachable
`assert False` for unhandled shapes). -/
def get_default_value : Ty → Option Expression
  | Ty.functionType _ _ => none
  | Ty.elementary kind =>
    if (elementary_type.Int ++ elementary_type.Uint ++ elementary_type.Byte
        ++ ["address"]).contains kind then
      some (Expression.literal "0" (Ty.elementary kind))
    else if kind == "string" then
      some (Expression.literal "" (Ty.elementary "string"))
    else if kind == "bool" then
      some (Expression.literal "false" (Ty.elementary "bool"))
    else
      none
  | Ty.array elem none =>
    some (Expression.callExpression
      (Expression.newArray 1 elem)
      [Expression.literal "0" (Ty.elementary "uint256")]
      (tyStr elem ++ "[] memory"))
  | Ty.array elem (some length) =>
    match default_value_list elem length with
    | some es => some (Expression.tupleExpression es true)
    | none => none
  | Ty.userDefinedEnum name =>
    some (Expression.memberAccess "min" (Ty.userDefinedEnum name)
      (Expression.callExpression
        (Expression.identifier "type()")
        [Expression.identifier name]
        ("type(enum " ++ name ++ ")")))
  | Ty.userDefinedStruct name fieldTypes =>
    match default_value_fields fieldTypes with
    | some es => some (Expression.callExpression
        (Expression.identifier name)
        es
        ("struct " ++ name ++ " memory"))
    | none => none
  | Ty.userDefinedContract name =>
    some (Expression.typeConversion
      (Expression.typeConversion
        (Expression.literal "0" (Ty.elementary "uint256"))
        (Ty.elementary "address"))
      (Ty.userDefinedContract name))
  | Ty.typeAlias underlying name =>
    match get_default_value underlying with
    | some e => some (Expression.callExpression
        (Expression.memberAccess "wrap"
          (Ty.functionType [underlying] [Ty.typeAlias underlying name])
          (Expression.elementaryTypeNameExpression (Ty.typeAlias underlying name)))
        [e]
        (tyStr (Ty.typeAlias underlying name)))
    | none => none
  | Ty.typename _ => none

/-- The fixed-array comprehension of default_values.py: `length`
evaluations of `get_default_value` on the element type, in order. -/
def default_value_list (elem : Ty) : Nat → Option (List Expression)
  | 0 => some []
  | n + 1 =>
    match get_default_value elem with
    | some e =>
      match default_value_list elem n with
      | some es => some (e :: es)
      | none => none
    | none => none

/-- The structure-field comprehension of default_values.py: one
evaluation of `get_default_value` per field type, in declaration order. -/
def default_value_fields : List Ty → Option (List Expression)
  | [] => some []
  | f :: fs =>
    match get_default_value f with
    | some e =>
      match default_value_fields fs with
      | some es => some (e :: es)
      | none => none
    | none => none

end

/-- The type shapes the default-value synthesizer handles, per the
specification's error-handling section: elementary numeric / address /
string / bool kinds, dynamic and fixed arrays, enums, structures,
contracts, and aliases; function types and any other shape (typenames,
other elementary kinds) are unhandled. -/
def handled_shape : Ty → Bool
  | Ty.elementary kind =>
    (elementary_type.Int ++ elementary_type.Uint ++ elementary_type.Byte
      ++ ["address"]).contains kind
    || kind == "string" || kind == "bool"
  | Ty.array _ _ => true
  | Ty.userDefinedEnum _ => true
  | Ty.userDefinedStruct _ _ => true
  | Ty.userDefinedContract _ => true
  | Ty.functionType _ _ => false
  | Ty.typeAlias _ _ => true
  | Ty.typename _ => false

/-- Modelled from the spec: stringifying a `Literal` expression
(literal.py, not included in the sources) reproduces its literal text. -/
def literal_text : Expression → Option String
  | Expression.literal value _ => some value
  | _ => none

/-! ## event_call.py: event emission

An argument of a call is either a plain variable or a tuple /
inline-array constant whose elements are themselves arguments. -/

inductive IRArgument where
  | var (v : Var)
  | tupleConstant (elems : List IRArgument)
  deriving Repr

/-- Whether an argument is a tuple/inline-array constant. -/
def IRArgument.isTupleConstant : IRArgument → Bool
  | IRArgument.tupleConstant _ => true
  | _ => false

/-- Modelled from the spec: `Operation._unroll` (operation.py, not
included in the sources) — constant-argument unrolling: "when an
argument is itself a tuple/inline-array constant, its individual
elements are read operands, not the tuple container — flattening is one
level deep". -/
def _unroll : List IRArgument → List IRArgument
  | [] => []
  | IRArgument.var v :: rest => IRArgument.var v :: _unroll rest
  | IRArgument.tupleConstant elems :: rest => elems ++ _unroll rest

/-- The destination of an `EventCall`: the event declaration, whose
`name` the call delegates to. -/
structure EventDecl where
  name : String
  deriving Repr

/-- The `EventCall` operation (event_call.py): the destination event
declaration plus the ordered argument list inherited from `Call`
(call.py). -/
structure EventCall where
  destination : EventDecl
  arguments : List IRArgument
  deriving Repr

namespace EventCall

/-- `EventCall.name` (event_call.py): `self._destination.name`. -/
def name (ec : EventCall) : String :=
  ec.destination.name

/-- `EventCall.read` (event_call.py): `self._unroll(self.arguments)`. -/
def read (ec : EventCall) : List IRArgument :=
  _unroll ec.arguments

end EventCall

/-! ## using_for.py: the using-for table and merge

A Python dict is embedded as an insertion-ordered association list with
pairwise-distinct keys (`DictWF`).  `setItem` is `d[k] = v` (update in
place when the key is present, append otherwise), `getValue` is `d[k]`,
`containsKey` is `k in d`, and `dictUpdate d1 d2` is `{**d1, **d2}`. -/

section PyDict

variable {K V : Type} [DecidableEq K]

/-- A Python dict as an insertion-ordered association list. -/
abbrev Dict (K V : Type) : Type := List (K × V)

/-- The dict's keys, in insertion order. -/
def dictKeys (d : Dict K V) : List K :=
  d.map Prod.fst

/-- A value list is a Python dict iff its keys are pairwise distinct. -/
def DictWF (d : Dict K V) : Prop :=
  (dictKeys d).Nodup

/-- `k in d`. -/
def containsKey (d : Dict K V) (k : K) : Bool :=
  (d : List (K × V)).any (fun kv => kv.1 = k)

/-- `d[k]`, `none` when the key is absent (a raising lookup in Python). -/
def getValue (d : Dict K V) (k : K) : Option V :=
  match d with
  | [] => none
  | (k0, v0) :: rest => if k0 = k then some v0 else getValue rest k

/-- `d[k] = v`: replace the value at the key's existing position, or
append a new entry. -/
def setItem (d : Dict K V) (k : K) (v : V) : Dict K V :=
  match d with
  | [] => [(k, v)]
  | (k0, v0) :: rest => if k0 = k then (k0, v) :: rest else (k0, v0) :: setItem rest k v

/-- `{**d1, **d2}`: a copy of `d1` updated with `d2`'s entries in order. -/
def dictUpdate (d1 d2 : Dict K V) : Dict K V :=
  (d2 : List (K × V)).foldl (fun acc kv => setItem acc kv.1 kv.2) d1

/-- The body of the merge loop for one `key, value` item: `if key in
uf1 and key in uf2: result[key] = value + uf1[key]`.  The lookup
`uf1[key]` sits behind the `key in uf1` guard, so the `getD` default is
never taken. -/
def merge_loop_step (uf1 uf2 : Dict K (List V)) (acc : Dict K (List V))
    (kv : K × List V) : Dict K (List V) :=
  if containsKey uf1 kv.1 && containsKey uf2 kv.1 then
    setItem acc kv.1 (kv.2 ++ (getValue uf1 kv.1).getD [])
  else acc

/-- `merge_using_for` (using_for.py): build `result = {**uf1, **uf2}`,
then for each `key, value` item of `result` run the loop body
(iteration value-updates over distinct keys leave each visited value
equal to the snapshot value, so folding over the snapshot items is the
loop). -/
def merge_using_for (uf1 uf2 : Dict K (List V)) : Dict K (List V) :=
  let result := dictUpdate uf1 uf2
  (result : List (K × List V)).foldl (merge_loop_step uf1 uf2) result

end PyDict

/-! ### Heap model of merge_using_for

To state that `merge_using_for` mutates neither input, the dicts are
placed in an explicit store of dict objects addressed by allocation
index, and the function body is replayed against that store: read both
inputs, allocate a fresh result object, and perform the loop's
`result[key] = ...` writes against the result object only. -/

section PyHeap

variable {K V : Type} [DecidableEq K]

/-- A store of dict objects; an object reference is an index. -/
structure Store (K V : Type) where
  dicts : List (Dict K V)

/-- Dereference a dict object. -/
def Store.read (s : Store K V) (r : Nat) : Dict K V :=
  s.dicts.getD r []

/-- Overwrite a dict object in place. -/
def Store.write (s : Store K V) (r : Nat) (d : Dict K V) : Store K V :=
  ⟨s.dicts.set r d⟩

/-- Allocate a fresh dict object; returns the new store and the
reference to the new object. -/
def Store.alloc (s : Store K V) (d : Dict K V) : Store K V × Nat :=
  (⟨s.dicts ++ [d]⟩, s.dicts.length)

/-- The body of the merge loop against the store: the `result[key] =
value + uf1[key]` assignment is a write to the result object `res`. -/
def heap_merge_step (uf1 uf2 : Dict K (List V)) (res : Nat)
    (st : Store K (List V)) (kv : K × List V) : Store K (List V) :=
  if containsKey uf1 kv.1 && containsKey uf2 kv.1 then
    st.write res (setItem (st.read res) kv.1 (kv.2 ++ (getValue uf1 kv.1).getD []))
  else st

/-- `merge_using_for` replayed against the store: `result` is a freshly
allocated dict initialized to `{**uf1, **uf2}`, and each loop iteration
is a `heap_merge_step` write to the result object. -/
def merge_using_for_heap (s : Store K (List V)) (r1 r2 : Nat) :
    Store K (List V) × Nat :=
  let uf1 := s.read r1
  let uf2 := s.read r2
  let s1 := (s.alloc (dictUpdate uf1 uf2)).1
  let res := (s.alloc (dictUpdate uf1 uf2)).2
  let items := s1.read res
  ((items : List (K × List V)).foldl (heap_merge_step uf1 uf2 res) s1, res)

end PyHeap

/-! ## Theorems -/

/-- C1: `_is_storage_variable` returns true iff one of the four cases
holds, evaluated in source order — (i) a ReferenceVariable whose
points-to origin is a StateVariable; (ii) a ReferenceVariable whose
origin is a local or temporary variable located in `"storage"`; (iii) a
StateVariable; (iv) a LocalVariable located in `"storage"` — and false
in every other case; and `Push.storage` is exactly this classification
applied to the target array variable. -/
theorem storage_classification_four_cases :
    (∀ v : Var, _is_storage_variable v = spec_storage_classification v)
    ∧ (∀ p : Push, p.storage = spec_storage_classification p.array) := by
  have h : ∀ v : Var, _is_storage_variable v = spec_storage_classification v := by
    intro v
    cases v with
    | referenceVar i p t =>
      simp only [_is_storage_variable, spec_storage_classification,
        Var.isReferenceVariable, Var.points_to_origin, Bool.true_and]
      cases hp : Var.points_to_origin p with
      | stateVar name ty =>
        simp [Var.isStateVariable]
      | localVar name loc ty =>
        simp [Var.isStateVariable, Var.isLocalVariable, Var.isTemporaryVariable,
          Var.location]
      | temporaryVar idx loc ty =>
        simp [Var.isStateVariable, Var.isLocalVariable, Var.isTemporaryVariable,
          Var.location]
      | referenceVar idx pt ty =>
        simp [Var.isStateVariable, Var.isLocalVariable, Var.isTemporaryVariable,
          Var.isReferenceVariable, Var.location]
      | constantVar val ty =>
        simp [Var.isStateVariable, Var.isLocalVariable, Var.isTemporaryVariable,
          Var.location]
    | stateVar name ty =>
      simp [_is_storage_variable, spec_storage_classification, Var.isReferenceVariable,
        Var.isStateVariable, Var.isLocalVariable, Var.location]
    | localVar name loc ty =>
      simp [_is_storage_variable, spec_storage_classification, Var.isReferenceVariable,
        Var.isStateVariable, Var.isLocalVariable, Var.location]
    | temporaryVar idx loc ty =>
      simp [_is_storage_variable, spec_storage_classification, Var.isReferenceVariable,
        Var.isStateVariable, Var.isLocalVariable, Var.location]
    | constantVar val ty =>
      simp [_is_storage_variable, spec_storage_classification, Var.isReferenceVariable,
        Var.isStateVariable, Var.isLocalVariable, Var.location]
  exact ⟨h, fun p => h p.array⟩

/-- Counter and index bookkeeping of sequential temporary allocation:
`n` allocations starting from counter `c` yield indices `c, c+1, ...,
c+n-1` in order and leave the counter at `c + n`. -/
theorem allocTemps_spec (u : CompilationUnit) (n : Nat) :
    ((allocTemps u n).1.map TemporaryVariable.index
      = List.range' u.counter_slithir_temporary n)
    ∧ (allocTemps u n).2
      = { counter_slithir_temporary := u.counter_slithir_temporary + n } := by
  induction n generalizing u with
  | zero => simp [allocTemps, List.range']
  | succ n ih =>
    have h := ih { counter_slithir_temporary := u.counter_slithir_temporary + 1 }
    simp only [allocTemps, TemporaryVariable.init] at h ⊢
    refine ⟨?_, ?_⟩
    · simp [h.1, List.range'_succ]
    · simp [h.2, Nat.add_assoc, Nat.add_comm 1 n]

/-- C3: temporaries allocated through the compilation unit's counter
are numbered monotonically and never reused across functions: a first
batch of `n` allocations takes indices `c .. c+n-1`, a second batch of
`m` allocations in the updated unit takes indices `c+n .. c+n+m-1`, and
the combined index list has no duplicate. -/
theorem temporary_indices_unique_across_functions :
    ∀ (u : CompilationUnit) (n m : Nat),
      ((allocTemps u n).1.map TemporaryVariable.index
        = List.range' u.counter_slithir_temporary n)
      ∧ ((allocTemps (allocTemps u n).2 m).1.map TemporaryVariable.index
        = List.range' (u.counter_slithir_temporary + n) m)
      ∧ (((allocTemps u n).1 ++ (allocTemps (allocTemps u n).2 m).1).map
          TemporaryVariable.index).Nodup := by
  intro u n m
  obtain ⟨h1, h2⟩ := allocTemps_spec u n
  have h3 : (allocTemps (allocTemps u n).2 m).1.map TemporaryVariable.index
      = List.range' (u.counter_slithir_temporary + n) m := by
    rw [h2]; exact (allocTemps_spec _ m).1
  refine ⟨h1, h3, ?_⟩
  rw [List.map_append, h1, h3, List.range'_append_1]
  exact List.nodup_range' _ _

/-- C10: constructing a TemporaryVariable with an explicit index stores
that index verbatim and leaves the owning unit's counter unchanged; in
particular an explicit index can collide with a counter-allocated one
(both take index 0 below), so uniqueness holds only for the counter
path. -/
theorem temporary_explicit_index_bypasses_counter :
    (∀ (u : CompilationUnit) (i : Nat) (loc : Option String),
      TemporaryVariable.init u (some i) loc = ({ index := i, location := loc }, u))
    ∧ (TemporaryVariable.init { counter_slithir_temporary := 0 } none none).1.index
      = (TemporaryVariable.init
          (TemporaryVariable.init { counter_slithir_temporary := 0 } none none).2
          (some 0) none).1.index := by
  exact ⟨fun u i loc => rfl, rfl⟩

/-- C7: `Push.read` is empty for the default variant and the singleton
`[elem]` for the explicit variant, and `Push.type` is the element type
of the target array's array type. -/
theorem push_read_and_type :
    ∀ p : Push,
      (p.elem = none → p.read = [])
      ∧ (∀ e : Var, p.elem = some e → p.read = [e])
      ∧ (∀ (E : Ty) (len : Option Nat), p.array.type = Ty.array E len →
          p.type = some E) := by
  intro p
  refine ⟨?_, ?_, ?_⟩
  · intro h; simp [Push.read, h]
  · intro e h; simp [Push.read, h]
  · intro E len h; simp [Push.type, h]

/-- Witness for C7, the spec's scenario: a default-variant Push on a
storage dynamic array of uint256 has `read = []`, `type = uint256`, and
`storage = true`. -/
theorem push_read_and_type_witness :
    (Push.mk
      (Var.temporaryVar 0 none (Ty.elementary "uint256"))
      (Var.stateVar "arr" (Ty.array (Ty.elementary "uint256") none))
      none).read = []
    ∧ (Push.mk
      (Var.temporaryVar 0 none (Ty.elementary "uint256"))
      (Var.stateVar "arr" (Ty.array (Ty.elementary "uint256") none))
      none).type = some (Ty.elementary "uint256")
    ∧ (Push.mk
      (Var.temporaryVar 0 none (Ty.elementary "uint256"))
      (Var.stateVar "arr" (Ty.array (Ty.elementary "uint256") none))
      none).storage = true := by
  refine ⟨(push_read_and_type _).1 rfl, (push_read_and_type _).2.2 _ none rfl, rfl⟩

/-- Constant-unrolling leaves a tuple-free argument list unchanged. -/
theorem unroll_of_no_tuple (args : List IRArgument)
    (h : ∀ a ∈ args, a.isTupleConstant = false) : _unroll args = args := by
  induction args with
  | nil => rfl
  | cons a rest ih =>
    cases a with
    | var v =>
      simp only [_unroll]
      rw [ih (fun b hb => h b (List.mem_cons_of_mem _ hb))]
    | tupleConstant elems =>
      have := h (IRArgument.tupleConstant elems) (List.mem_cons_self _ _)
      simp [IRArgument.isTupleConstant] at this

/-- C8: `EventCall.read` is the one-level constant-unrolled flattening
of the argument list — so when no argument is a tuple/inline-array
constant, `read` equals the argument list unchanged and in order — and
`EventCall.name` is the name of the destination event declaration. -/
theorem event_call_read_and_name :
    ∀ ec : EventCall,
      ec.read = _unroll ec.arguments
      ∧ ec.name = ec.destination.name
      ∧ ((∀ a ∈ ec.arguments, a.isTupleConstant = false) →
          ec.read = ec.arguments) := by
  intro ec
  exact ⟨rfl, rfl, fun h => unroll_of_no_tuple ec.arguments h⟩

/-- Witness for C8, the spec's scenario: an `EventCall` on an event
named `Transfer` with three plain variable arguments has `read` equal
to the argument list unchanged, and its name is `Transfer`. -/
theorem event_call_read_and_name_witness :
    (EventCall.mk (EventDecl.mk "Transfer")
      [IRArgument.var (Var.localVar "a" "memory" (Ty.elementary "address")),
       IRArgument.var (Var.localVar "b" "memory" (Ty.elementary "address")),
       IRArgument.var (Var.localVar "c" "memory" (Ty.elementary "uint256"))]).read
    = [IRArgument.var (Var.localVar "a" "memory" (Ty.elementary "address")),
       IRArgument.var (Var.localVar "b" "memory" (Ty.elementary "address")),
       IRArgument.var (Var.localVar "c" "memory" (Ty.elementary "uint256"))]
    ∧ (EventCall.mk (EventDecl.mk "Transfer")
      [IRArgument.var (Var.localVar "a" "memory" (Ty.elementary "address")),
       IRArgument.var (Var.localVar "b" "memory" (Ty.elementary "address")),
       IRArgument.var (Var.localVar "c" "memory" (Ty.elementary "uint256"))]).name
    = "Transfer" := by
  refine ⟨(event_call_read_and_name _).2.2 ?_, (event_call_read_and_name _).2.1⟩
  intro a ha
  fin_cases ha <;> rfl

/-- The fixed-array comprehension replicates the element default when
the element type's default exists. -/
theorem default_value_list_replicate (E : Ty) (e : Expression)
    (h : get_default_value E = some e) :
    ∀ n : Nat, default_value_list E n = some (List.replicate n e) := by
  intro n
  induction n with
  | zero => simp [default_value_list]
  | succ n ih => simp [default_value_list, h, ih, List.replicate]

/-- C4: the default value of a fixed array of element type `E` and
length `N` is an inline-array tuple of exactly `N` copies of the
default value of `E`, in order; for `N = 0` it is the empty
inline-array tuple (whatever `E` is). -/
theorem fixed_array_default_value :
    (∀ (E : Ty) (n : Nat) (e : Expression), get_default_value E = some e →
      get_default_value (Ty.array E (some n))
        = some (Expression.tupleExpression (List.replicate n e) true))
    ∧ (∀ E : Ty, get_default_value (Ty.array E (some 0))
        = some (Expression.tupleExpression [] true)) := by
  constructor
  · intro E n e h
    simp [get_default_value, default_value_list_replicate E e h n]
  · intro E
    simp [get_default_value, default_value_list]

/-- Witness for C4: the fixed array `bool[2]` defaults to the
inline-array tuple of two `false` literals. -/
theorem fixed_array_default_value_witness :
    get_default_value (Ty.elementary "bool")
      = some (Expression.literal "false" (Ty.elementary "bool"))
    ∧ get_default_value (Ty.array (Ty.elementary "bool") (some 2))
      = some (Expression.tupleExpression
          [Expression.literal "false" (Ty.elementary "bool"),
           Expression.literal "false" (Ty.elementary "bool")] true) := by
  have hb : get_default_value (Ty.elementary "bool")
      = some (Expression.literal "false" (Ty.elementary "bool")) := by
    simp [get_default_value]
    exact ⟨by decide, by decide, by decide⟩
  exact ⟨hb, fixed_array_default_value.1 _ 2 _ hb⟩

/-- C5: elementary numeric (int/uint/bytesN) and address kinds default
to the literal `"0"` of that type, `string` to the literal `""`, `bool`
to the literal `"false"`, each stringifying back to the same text; and a
dynamic array defaults to a new-array construction whose single length
argument is the literal `"0"`. -/
theorem elementary_and_dynamic_array_defaults :
    (∀ kind : String,
      kind ∈ elementary_type.Int ++ elementary_type.Uint ++ elementary_type.Byte
        ++ ["address"] →
      get_default_value (Ty.elementary kind)
        = some (Expression.literal "0" (Ty.elementary kind))
      ∧ literal_text (Expression.literal "0" (Ty.elementary kind)) = some "0")
    ∧ (get_default_value (Ty.elementary "string")
        = some (Expression.literal "" (Ty.elementary "string"))
      ∧ literal_text (Expression.literal "" (Ty.elementary "string")) = some "")
    ∧ (get_default_value (Ty.elementary "bool")
        = some (Expression.literal "false" (Ty.elementary "bool"))
      ∧ literal_text (Expression.literal "false" (Ty.elementary "bool")) = some "false")
    ∧ (∀ E : Ty, get_default_value (Ty.array E none)
        = some (Expression.callExpression (Expression.newArray 1 E)
            [Expression.literal "0" (Ty.elementary "uint256")]
            (tyStr E ++ "[] memory"))) := by
  refine ⟨?_, ?_, ?_, ?_⟩
  · intro kind h
    refine ⟨?_, rfl⟩
    have h' := h
    simp only [List.mem_append, List.mem_singleton] at h'
    rcases h' with ((h1 | h2) | h3) | h4
    · simp [get_default_value, h1]
    · simp [get_default_value, h2]
    · simp [get_default_value, h3]
    · subst h4; simp [get_default_value]
  · refine ⟨?_, rfl⟩
    simp [get_default_value]
    exact ⟨by decide, by decide, by decide⟩
  · refine ⟨?_, rfl⟩
    simp [get_default_value]
    exact ⟨by decide, by decide, by decide⟩
  · intro E
    simp [get_default_value]

/-- Witness for C5: the kind `uint256` is a numeric kind and defaults
to the literal `"0"` of type `uint256`, which stringifies to `"0"`. -/
theorem elementary_and_dynamic_array_defaults_witness :
    ("uint256" ∈ elementary_type.Int ++ elementary_type.Uint ++ elementary_type.Byte
      ++ ["address"])
    ∧ get_default_value (Ty.elementary "uint256")
        = some (Expression.literal "0" (Ty.elementary "uint256"))
    ∧ literal_text (Expression.literal "0" (Ty.elementary "uint256")) = some "0" := by
  have h : "uint256" ∈ elementary_type.Int ++ elementary_type.Uint
      ++ elementary_type.Byte ++ ["address"] := by decide
  exact ⟨h, (elementary_and_dynamic_array_defaults.1 "uint256" h).1,
    (elementary_and_dynamic_array_defaults.1 "uint256" h).2⟩

/-- C6: the programming-contract violations fail instead of returning a
value — `storage_size` and `is_dynamic` on a `Typename` never produce a
result, `get_default_value` on a function type never produces a result,
and `get_default_value` on any type shape outside the handled cases
never produces a result. -/
theorem contract_violation_queries_fail :
    (∀ t : Typename, t.storage_size = none ∧ t.is_dynamic = none)
    ∧ (∀ params rets : List Ty,
        get_default_value (Ty.functionType params rets) = none)
    ∧ (∀ ty : Ty, handled_shape ty = false → get_default_value ty = none) := by
  refine ⟨fun t => ⟨rfl, rfl⟩, fun ps rs => by simp [get_default_value], ?_⟩
  intro ty h
  cases ty with
  | elementary kind =>
    simp [handled_shape] at h
    obtain ⟨⟨⟨h1, h2, h3, h4⟩, h5⟩, h6⟩ := h
    simp [get_default_value, h1, h2, h3, h4, h5, h6]
  | array elem length => simp [handled_shape] at h
  | userDefinedEnum name => simp [handled_shape] at h
  | userDefinedStruct name fieldTypes => simp [handled_shape] at h
  | userDefinedContract name => simp [handled_shape] at h
  | functionType params rets => simp [get_default_value]
  | typeAlias underlying name => simp [handled_shape] at h
  | typename wrapped => simp [get_default_value]

/-- Witness for C6: a typename type is not a handled shape and its
default-value synthesis fails. -/
theorem contract_violation_queries_fail_witness :
    handled_shape (Ty.typename (Ty.elementary "bool")) = false
    ∧ get_default_value (Ty.typename (Ty.elementary "bool")) = none :=
  ⟨rfl, contract_violation_queries_fail.2.2 _ rfl⟩

/-! ### Dict lemmas -/

section PyDictLemmas

variable {K V : Type} [DecidableEq K]

theorem dictKeys_nil : dictKeys ([] : Dict K V) = [] := rfl

theorem dictKeys_cons (k0 : K) (v0 : V) (rest : Dict K V) :
    dictKeys ((k0, v0) :: rest) = k0 :: dictKeys rest := rfl

theorem setItem_cons_self (k0 : K) (v0 v : V) (rest : Dict K V) :
    setItem ((k0, v0) :: rest) k0 v = (k0, v) :: rest := by
  simp [setItem]

theorem setItem_cons_ne (k0 k : K) (v0 v : V) (rest : Dict K V) (h : k0 ≠ k) :
    setItem ((k0, v0) :: rest) k v = (k0, v0) :: setItem rest k v := by
  simp [setItem, h]

theorem getValue_setItem_self (d : Dict K V) (k : K) (v : V) :
    getValue (setItem d k v) k = some v := by
  induction d with
  | nil => simp [setItem, getValue]
  | cons kv rest ih =>
    obtain ⟨k0, v0⟩ := kv
    by_cases hk : k0 = k
    · subst hk
      rw [setItem_cons_self]
      simp [getValue]
    · rw [setItem_cons_ne _ _ _ _ _ hk]
      simp [getValue, hk, ih]

theorem getValue_setItem_ne (d : Dict K V) {k k' : K} (v : V) (h : k ≠ k') :
    getValue (setItem d k v) k' = getValue d k' := by
  induction d with
  | nil => simp [setItem, getValue, h]
  | cons kv rest ih =>
    obtain ⟨k0, v0⟩ := kv
    by_cases hk : k0 = k
    · subst hk
      rw [setItem_cons_self]
      simp [getValue, h]
    · rw [setItem_cons_ne _ _ _ _ _ hk]
      simp [getValue, ih]

theorem mem_dictKeys_iff_containsKey (d : Dict K V) (k : K) :
    k ∈ dictKeys d ↔ containsKey d k = true := by
  simp [dictKeys, containsKey, List.any_eq_true]

theorem getValue_eq_none_of_not_mem (d : Dict K V) (k : K)
    (h : k ∉ dictKeys d) : getValue d k = none := by
  induction d with
  | nil => rfl
  | cons kv rest ih =>
    obtain ⟨k0, v0⟩ := kv
    rw [dictKeys_cons] at h
    have hne : k0 ≠ k := fun he => h (he ▸ List.mem_cons_self _ _)
    have hrest : k ∉ dictKeys rest := fun hm => h (List.mem_cons_of_mem _ hm)
    simp [getValue, hne, ih hrest]

theorem mem_dictKeys_of_getValue (d : Dict K V) (k : K) {v : V}
    (h : getValue d k = some v) : k ∈ dictKeys d := by
  by_contra hk
  rw [getValue_eq_none_of_not_mem d k hk] at h
  exact Option.noConfusion h

theorem entry_mem_of_getValue (d : Dict K V) (k : K) {v : V}
    (h : getValue d k = some v) : (k, v) ∈ d := by
  induction d with
  | nil => exact Option.noConfusion h
  | cons kv rest ih =>
    obtain ⟨k0, v0⟩ := kv
    by_cases hk : k0 = k
    · subst hk
      simp [getValue] at h
      subst h
      exact List.mem_cons_self _ _
    · simp [getValue, hk] at h
      exact List.mem_cons_of_mem _ (ih h)

theorem dictKeys_setItem (d : Dict K V) (k : K) (v : V) :
    dictKeys (setItem d k v)
      = if k ∈ dictKeys d then dictKeys d else dictKeys d ++ [k] := by
  induction d with
  | nil => simp [setItem, dictKeys]
  | cons kv rest ih =>
    obtain ⟨k0, v0⟩ := kv
    by_cases hk : k0 = k
    · subst hk
      rw [setItem_cons_self, dictKeys_cons, dictKeys_cons,
        if_pos (List.mem_cons_self _ _)]
    · rw [setItem_cons_ne _ _ _ _ _ hk, dictKeys_cons, ih, dictKeys_cons]
      by_cases hmem : k ∈ dictKeys rest
      · rw [if_pos hmem, if_pos (List.mem_cons_of_mem _ hmem)]
      · have hnot : k ∉ k0 :: dictKeys rest := by
          intro hm
          rcases List.mem_cons.1 hm with he | hm2
          · exact hk he.symm
          · exact hmem hm2
        rw [if_neg hmem, if_neg hnot, List.cons_append]

theorem mem_dictKeys_setItem (d : Dict K V) (k k' : K) (v : V) :
    k' ∈ dictKeys (setItem d k v) ↔ k' ∈ dictKeys d ∨ k' = k := by
  rw [dictKeys_setItem]
  by_cases hmem : k ∈ dictKeys d
  · rw [if_pos hmem]
    constructor
    · exact Or.inl
    · rintro (h | rfl)
      · exact h
      · exact hmem
  · rw [if_neg hmem]
    simp [List.mem_append]

theorem DictWF_setItem (d : Dict K V) (k : K) (v : V) (h : DictWF d) :
    DictWF (setItem d k v) := by
  unfold DictWF at h ⊢
  rw [dictKeys_setItem]
  by_cases hmem : k ∈ dictKeys d
  · rw [if_pos hmem]; exact h
  · rw [if_neg hmem]
    simp [List.nodup_append, h, hmem]

theorem dictKeys_setItem_of_mem (d : Dict K V) (k : K) (v : V)
    (h : k ∈ dictKeys d) : dictKeys (setItem d k v) = dictKeys d := by
  rw [dictKeys_setItem, if_pos h]

theorem getValue_dictUpdate (d1 d2 : Dict K V) (k : K)
    (h2 : DictWF d2) :
    getValue (dictUpdate d1 d2) k = (getValue d2 k).or (getValue d1 k) := by
  induction d2 generalizing d1 with
  | nil => simp [dictUpdate, getValue, Option.or]
  | cons kv rest ih =>
    obtain ⟨k0, v0⟩ := kv
    have h2' : (k0 :: dictKeys rest).Nodup := h2
    have hnodup : DictWF rest := (List.nodup_cons.1 h2').2
    have hk0 : k0 ∉ dictKeys rest := (List.nodup_cons.1 h2').1
    show getValue (dictUpdate (setItem d1 k0 v0) rest) k = _
    rw [ih (setItem d1 k0 v0) hnodup]
    by_cases hk : k0 = k
    · subst hk
      rw [getValue_eq_none_of_not_mem rest k0 hk0, getValue_setItem_self]
      simp [getValue, Option.or]
    · rw [getValue_setItem_ne d1 v0 hk]
      simp [getValue, hk]

theorem mem_dictKeys_dictUpdate (d1 d2 : Dict K V) (k : K) :
    k ∈ dictKeys (dictUpdate d1 d2) ↔ k ∈ dictKeys d1 ∨ k ∈ dictKeys d2 := by
  induction d2 generalizing d1 with
  | nil => simp [dictUpdate, dictKeys]
  | cons kv rest ih =>
    obtain ⟨k0, v0⟩ := kv
    show k ∈ dictKeys (dictUpdate (setItem d1 k0 v0) rest) ↔ _
    rw [ih (setItem d1 k0 v0), mem_dictKeys_setItem, dictKeys_cons]
    simp only [List.mem_cons]
    tauto

theorem DictWF_dictUpdate (d1 d2 : Dict K V) (h1 : DictWF d1) :
    DictWF (dictUpdate d1 d2) := by
  induction d2 generalizing d1 with
  | nil => exact h1
  | cons kv rest ih =>
    obtain ⟨k0, v0⟩ := kv
    exact ih (setItem d1 k0 v0) (DictWF_setItem d1 k0 v0 h1)

end PyDictLemmas

/-! ### Merge-loop lemmas and the merge characterization -/

section MergeLemmas

variable {K V : Type} [DecidableEq K]

theorem merge_loop_not_mem (uf1 uf2 : Dict K (List V))
    (items : List (K × List V)) (acc : Dict K (List V)) (k : K)
    (h : k ∉ items.map Prod.fst) :
    getValue (items.foldl (merge_loop_step uf1 uf2) acc) k = getValue acc k := by
  induction items generalizing acc with
  | nil => rfl
  | cons kv rest ih =>
    rw [List.map_cons] at h
    have hk : kv.1 ≠ k := fun he => h (he ▸ List.mem_cons_self _ _)
    have hrest : k ∉ rest.map Prod.fst := fun hm => h (List.mem_cons_of_mem _ hm)
    rw [List.foldl_cons, ih _ hrest]
    by_cases hc : containsKey uf1 kv.1 && containsKey uf2 kv.1
    · simp only [merge_loop_step, if_pos hc]
      exact getValue_setItem_ne acc _ hk
    · simp only [merge_loop_step, if_neg hc]

theorem merge_loop_mem (uf1 uf2 : Dict K (List V))
    (items : List (K × List V)) (acc : Dict K (List V)) (k : K) (v : List V)
    (hnd : (items.map Prod.fst).Nodup) (hmem : (k, v) ∈ items) :
    getValue (items.foldl (merge_loop_step uf1 uf2) acc) k
      = if containsKey uf1 k && containsKey uf2 k then
          some (v ++ (getValue uf1 k).getD [])
        else getValue acc k := by
  induction items generalizing acc with
  | nil => cases hmem
  | cons kv rest ih =>
    rw [List.map_cons] at hnd
    have hnd' := List.nodup_cons.1 hnd
    rw [List.foldl_cons]
    rcases List.mem_cons.1 hmem with he | hm
    · obtain ⟨k1, v1⟩ := kv
      injection he with hek hev
      subst hek
      subst hev
      rw [merge_loop_not_mem uf1 uf2 rest _ k hnd'.1]
      by_cases hc : containsKey uf1 k && containsKey uf2 k
      · simp only [merge_loop_step, hc, if_pos]
        exact getValue_setItem_self acc k _
      · simp only [merge_loop_step, hc, if_neg, Bool.false_eq_true,
          not_false_eq_true]
    · have hk_in_rest : k ∈ rest.map Prod.fst := by
        have := List.mem_map_of_mem Prod.fst hm
        exact this
      have hne : kv.1 ≠ k := fun he2 => hnd'.1 (he2 ▸ hk_in_rest)
      rw [ih (merge_loop_step uf1 uf2 acc kv) hnd'.2 hm]
      by_cases hc : containsKey uf1 k && containsKey uf2 k
      · simp only [hc, if_pos]
      · simp only [hc, Bool.false_eq_true, not_false_eq_true, if_neg]
        by_cases hc2 : containsKey uf1 kv.1 && containsKey uf2 kv.1
        · simp only [merge_loop_step, if_pos hc2]
          exact getValue_setItem_ne acc _ hne
        · simp only [merge_loop_step, if_neg hc2]

theorem merge_loop_keys (uf1 uf2 : Dict K (List V))
    (items : List (K × List V)) (acc : Dict K (List V))
    (h : ∀ kv ∈ items, kv.1 ∈ dictKeys acc) :
    dictKeys (items.foldl (merge_loop_step uf1 uf2) acc) = dictKeys acc := by
  induction items generalizing acc with
  | nil => rfl
  | cons kv rest ih =>
    have hstep : dictKeys (merge_loop_step uf1 uf2 acc kv) = dictKeys acc := by
      by_cases hc : containsKey uf1 kv.1 && containsKey uf2 kv.1
      · simp only [merge_loop_step, if_pos hc]
        exact dictKeys_setItem_of_mem acc kv.1 _ (h kv (List.mem_cons_self _ _))
      · simp only [merge_loop_step, if_neg hc]
    rw [List.foldl_cons, ih _ ?hrest, hstep]
    case hrest =>
      intro kv2 hm
      rw [hstep]
      exact h kv2 (List.mem_cons_of_mem _ hm)

theorem merge_keys (uf1 uf2 : Dict K (List V)) :
    dictKeys (merge_using_for uf1 uf2) = dictKeys (dictUpdate uf1 uf2) := by
  unfold merge_using_for
  exact merge_loop_keys uf1 uf2 _ _ (fun kv hm => List.mem_map_of_mem Prod.fst hm)

theorem merge_getValue_aux (uf1 uf2 : Dict K (List V)) (h1 : DictWF uf1)
    (k : K) (v : List V) (hv : getValue (dictUpdate uf1 uf2) k = some v) :
    getValue (merge_using_for uf1 uf2) k
      = if containsKey uf1 k && containsKey uf2 k then
          some (v ++ (getValue uf1 k).getD [])
        else some v := by
  have hwf : DictWF (dictUpdate uf1 uf2) := DictWF_dictUpdate uf1 uf2 h1
  have hentry := entry_mem_of_getValue _ _ hv
  unfold merge_using_for
  rw [merge_loop_mem uf1 uf2 _ _ k v hwf hentry, hv]

theorem merge_containsKey (uf1 uf2 : Dict K (List V)) (k : K) :
    containsKey (merge_using_for uf1 uf2) k
      = (containsKey uf1 k || containsKey uf2 k) := by
  have hiff : containsKey (merge_using_for uf1 uf2) k = true
      ↔ (containsKey uf1 k || containsKey uf2 k) = true := by
    rw [← mem_dictKeys_iff_containsKey, merge_keys, mem_dictKeys_dictUpdate,
      mem_dictKeys_iff_containsKey, mem_dictKeys_iff_containsKey,
      Bool.or_eq_true]
  exact Bool.eq_iff_iff.2 hiff

theorem merge_getValue_left (uf1 uf2 : Dict K (List V))
    (h1 : DictWF uf1) (h2 : DictWF uf2) (k : K) (va : List V)
    (ha : getValue uf1 k = some va) (hb : containsKey uf2 k = false) :
    getValue (merge_using_for uf1 uf2) k = some va := by
  have hbn : getValue uf2 k = none := by
    apply getValue_eq_none_of_not_mem
    rw [mem_dictKeys_iff_containsKey, hb]
    simp
  have hv : getValue (dictUpdate uf1 uf2) k = some va := by
    rw [getValue_dictUpdate uf1 uf2 k h2, hbn, ha]
    rfl
  rw [merge_getValue_aux uf1 uf2 h1 k va hv, hb]
  simp

theorem merge_getValue_right (uf1 uf2 : Dict K (List V))
    (h1 : DictWF uf1) (h2 : DictWF uf2) (k : K) (vb : List V)
    (hb : getValue uf2 k = some vb) (ha : containsKey uf1 k = false) :
    getValue (merge_using_for uf1 uf2) k = some vb := by
  have hv : getValue (dictUpdate uf1 uf2) k = some vb := by
    rw [getValue_dictUpdate uf1 uf2 k h2, hb]
    rfl
  rw [merge_getValue_aux uf1 uf2 h1 k vb hv, ha]
  simp

theorem merge_getValue_both (uf1 uf2 : Dict K (List V))
    (h1 : DictWF uf1) (h2 : DictWF uf2) (k : K) (va vb : List V)
    (ha : getValue uf1 k = some va) (hb : getValue uf2 k = some vb) :
    getValue (merge_using_for uf1 uf2) k = some (vb ++ va) := by
  have hv : getValue (dictUpdate uf1 uf2) k = some vb := by
    rw [getValue_dictUpdate uf1 uf2 k h2, hb]
    rfl
  have hc1 : containsKey uf1 k = true := by
    rw [← mem_dictKeys_iff_containsKey]
    exact mem_dictKeys_of_getValue uf1 k ha
  have hc2 : containsKey uf2 k = true := by
    rw [← mem_dictKeys_iff_containsKey]
    exact mem_dictKeys_of_getValue uf2 k hb
  rw [merge_getValue_aux uf1 uf2 h1 k vb hv, hc1, hc2, ha]
  simp

end MergeLemmas

/-- C2: for using-for tables `A` and `B` (dicts: pairwise-distinct
keys), `merge_using_for A B` has exactly the union of the key sets; a
key only in `A` keeps `A`'s value, a key only in `B` keeps `B`'s value,
and a key in both maps to the concatenation `B[k] ++ A[k]` (`B` first,
no deduplication) — so self-merge doubles the length of every value. -/
theorem merge_using_for_spec {K V : Type} [DecidableEq K]
    (uf1 uf2 : Dict K (List V)) (h1 : DictWF uf1) (h2 : DictWF uf2) :
    (∀ k : K, containsKey (merge_using_for uf1 uf2) k
        = (containsKey uf1 k || containsKey uf2 k))
    ∧ (∀ (k : K) (va : List V), getValue uf1 k = some va →
        containsKey uf2 k = false →
        getValue (merge_using_for uf1 uf2) k = some va)
    ∧ (∀ (k : K) (vb : List V), getValue uf2 k = some vb →
        containsKey uf1 k = false →
        getValue (merge_using_for uf1 uf2) k = some vb)
    ∧ (∀ (k : K) (va vb : List V), getValue uf1 k = some va →
        getValue uf2 k = some vb →
        getValue (merge_using_for uf1 uf2) k = some (vb ++ va))
    ∧ (∀ (k : K) (va : List V), getValue uf1 k = some va →
        getValue (merge_using_for uf1 uf1) k = some (va ++ va)
        ∧ (va ++ va).length = 2 * va.length) := by
  refine ⟨merge_containsKey uf1 uf2,
    fun k va ha hb => merge_getValue_left uf1 uf2 h1 h2 k va ha hb,
    fun k vb hb ha => merge_getValue_right uf1 uf2 h1 h2 k vb hb ha,
    fun k va vb ha hb => merge_getValue_both uf1 uf2 h1 h2 k va vb ha hb,
    fun k va ha => ⟨merge_getValue_both uf1 uf1 h1 h1 k va va ha ha, ?_⟩⟩
  rw [List.length_append, Nat.two_mul]

/-- Witness for C2 on concrete tables: with `A = \x7b"*" ↦ [1], "t" ↦
[2]\x7d` and `B = \x7b"t" ↦ [3], "u" ↦ [4]\x7d`, the merged table keeps
`A`'s value at `"*"`, keeps `B`'s value at `"u"`, concatenates `B`
first at the shared key `"t"`, and self-merge of `A` doubles the value
at `"t"`. -/
theorem merge_using_for_spec_witness :
    getValue (merge_using_for [("*", [1]), ("t", [2])]
      [("t", [3]), ("u", [4])] : Dict String (List Nat)) "*" = some [1]
    ∧ getValue (merge_using_for [("*", [1]), ("t", [2])]
      [("t", [3]), ("u", [4])] : Dict String (List Nat)) "u" = some [4]
    ∧ getValue (merge_using_for [("*", [1]), ("t", [2])]
      [("t", [3]), ("u", [4])] : Dict String (List Nat)) "t" = some [3, 2]
    ∧ getValue (merge_using_for [("*", [1]), ("t", [2])]
      [("*", [1]), ("t", [2])] : Dict String (List Nat)) "t" = some [2, 2]
    ∧ ([2, 2] : List Nat).length = 2 * ([2] : List Nat).length := by
  have h1 : DictWF ([("*", [1]), ("t", [2])] : Dict String (List Nat)) := by
    unfold DictWF
    decide
  have h2 : DictWF ([("t", [3]), ("u", [4])] : Dict String (List Nat)) := by
    unfold DictWF
    decide
  have hspec := merge_using_for_spec
    ([("*", [1]), ("t", [2])] : Dict String (List Nat))
    ([("t", [3]), ("u", [4])] : Dict String (List Nat)) h1 h2
  refine ⟨hspec.2.1 "*" [1] (by decide) (by decide),
    hspec.2.2.1 "u" [4] (by decide) (by decide),
    hspec.2.2.2.1 "t" [2] [3] (by decide) (by decide),
    (hspec.2.2.2.2 "t" [2] (by decide)).1,
    (hspec.2.2.2.2 "t" [2] (by decide)).2⟩

/-! ### Heap frame lemmas and the no-mutation theorem -/

section PyHeapLemmas

variable {K V : Type} [DecidableEq K]

theorem Store.read_write_ne (s : Store K V) (r r2 : Nat) (d : Dict K V)
    (h : r2 ≠ r) : (s.write r d).read r2 = s.read r2 := by
  unfold Store.read Store.write
  simp [List.getD_eq_getElem?_getD, List.getElem?_set_ne (Ne.symm h)]

theorem Store.read_alloc_lt (s : Store K V) (d : Dict K V) (r : Nat)
    (h : r < s.dicts.length) : (s.alloc d).1.read r = s.read r := by
  unfold Store.read Store.alloc
  simp [List.getD_eq_getElem?_getD, List.getElem?_append_left h]

theorem heap_merge_loop_read_ne (uf1 uf2 : Dict K (List V)) (res : Nat)
    (items : List (K × List V)) (st : Store K (List V)) (r : Nat)
    (h : r ≠ res) :
    (items.foldl (heap_merge_step uf1 uf2 res) st).read r = st.read r := by
  induction items generalizing st with
  | nil => rfl
  | cons kv rest ih =>
    rw [List.foldl_cons, ih (heap_merge_step uf1 uf2 res st kv)]
    by_cases hc : containsKey uf1 kv.1 && containsKey uf2 kv.1
    · simp only [heap_merge_step, if_pos hc]
      exact Store.read_write_ne st res r _ h
    · simp only [heap_merge_step, if_neg hc]

end PyHeapLemmas

/-- C9: `merge_using_for` mutates neither input dict object: after the
call, the objects at both input references dereference to exactly the
dicts they held before (same keys, same value lists, same order), and
the returned reference is a freshly allocated object distinct from both
inputs. -/
theorem merge_using_for_heap_frame {K V : Type} [DecidableEq K]
    (s : Store K (List V)) (r1 r2 : Nat)
    (h1 : r1 < s.dicts.length) (h2 : r2 < s.dicts.length) :
    (merge_using_for_heap s r1 r2).1.read r1 = s.read r1
    ∧ (merge_using_for_heap s r1 r2).1.read r2 = s.read r2
    ∧ (merge_using_for_heap s r1 r2).2 ≠ r1
    ∧ (merge_using_for_heap s r1 r2).2 ≠ r2 := by
  have hne1 : r1 ≠ s.dicts.length := Nat.ne_of_lt h1
  have hne2 : r2 ≠ s.dicts.length := Nat.ne_of_lt h2
  have halloc : (s.alloc (dictUpdate (s.read r1) (s.read r2))).2
      = s.dicts.length := rfl
  refine ⟨?_, ?_, ?_, ?_⟩
  · simp only [merge_using_for_heap]
    rw [halloc, heap_merge_loop_read_ne _ _ _ _ _ _ hne1]
    exact Store.read_alloc_lt s _ r1 h1
  · simp only [merge_using_for_heap]
    rw [halloc, heap_merge_loop_read_ne _ _ _ _ _ _ hne2]
    exact Store.read_alloc_lt s _ r2 h2
  · exact fun he => hne1 he.symm
  · exact fun he => hne2 he.symm

/-- Witness for C9 on a concrete store holding the two tables of the
C2 witness at references 0 and 1: the merge leaves both objects
unchanged and returns a distinct reference. -/
theorem merge_using_for_heap_frame_witness :
    ((0 : Nat) < (Store.mk [[("*", [1]), ("t", [2])], [("t", [3]), ("u", [4])]]
      : Store String (List Nat)).dicts.length)
    ∧ ((1 : Nat) < (Store.mk [[("*", [1]), ("t", [2])], [("t", [3]), ("u", [4])]]
      : Store String (List Nat)).dicts.length)
    ∧ (merge_using_for_heap (Store.mk
        [[("*", [1]), ("t", [2])], [("t", [3]), ("u", [4])]]
        : Store String (List Nat)) 0 1).1.read 0
      = (Store.mk [[("*", [1]), ("t", [2])], [("t", [3]), ("u", [4])]]
        : Store String (List Nat)).read 0
    ∧ (merge_using_for_heap (Store.mk
        [[("*", [1]), ("t", [2])], [("t", [3]), ("u", [4])]]
        : Store String (List Nat)) 0 1).1.read 1
      = (Store.mk [[("*", [1]), ("t", [2])], [("t", [3]), ("u", [4])]]
        : Store String (List Nat)).read 1
    ∧ (merge_using_for_heap (Store.mk
        [[("*", [1]), ("t", [2])], [("t", [3]), ("u", [4])]]
        : Store String (List Nat)) 0 1).2 ≠ 0
    ∧ (merge_using_for_heap (Store.mk
        [[("*", [1]), ("t", [2])], [("t", [3]), ("u", [4])]]
        : Store String (List Nat)) 0 1).2 ≠ 1 := by
  have hf := merge_using_for_heap_frame (Store.mk
    [[("*", [1]), ("t", [2])], [("t", [3]), ("u", [4])]]
    : Store String (List Nat)) 0 1 (by decide) (by decide)
  exact ⟨by decide, by decide, hf.1, hf.2.1, hf.2.2.1, hf.2.2.2⟩

end SlitherCore
